import Mathlib

/-!
Verification of an arithmetic-expression tree library (Main.cpp): four
expression variants (Number, Variable, BinaryOperation, FunctionCall) with
evaluate, print and visitor-based transform operations, and two transformers,
CopySyntaxTree (deep copy) and FoldConstants (constant folding).

Modelling choices:
- C++ doubles are modelled as real numbers; the spec states numeric claims up
  to floating-point tolerance, and every folded value is stored exactly as the
  evaluation result, so real semantics settles those claims.
- The operator of a BinaryOperation is the int character code the C++ stores.
- The evaluate switch has no default case: an operator code outside the four
  enum constants makes control fall off the end of a value-returning function,
  which is undefined behavior; evaluation is therefore Option-valued, with
  none for that undefined case.
- Constructor assert statements are modelled by Option-valued construction
  functions (none when an assert fails); null child pointers are Option
  arguments.
- Number printing uses std::to_string on a double; print is parameterized by
  that host rendering function fmt.
-/

namespace PatternMain

/-- Operator code of the plus sign: the BinaryOperation enum stores the
character codes of the four operator symbols in an int field. -/
def BinaryOperation.PLUS : Int := 43

/-- Operator code of the minus sign. -/
def BinaryOperation.MINUS : Int := 45

/-- Operator code of the division slash. -/
def BinaryOperation.DIV : Int := 47

/-- Operator code of the multiplication star. -/
def BinaryOperation.MUL : Int := 42

/-- Expression tree: Number holds a double (modelled as a real), Variable a
name, BinaryOperation two children and an int operator code, FunctionCall a
name and an argument. Children are owned values, so the tree is finite and
acyclic by construction. -/
inductive Expression : Type
  | Number (value : ℝ)
  | Variable (name : String)
  | BinaryOperation (left : Expression) (op : Int) (right : Expression)
  | FunctionCall (name : String) (arg : Expression)

/-- Result of the evaluate switch on the operator code, applied to the values
of the two children. The C++ switch has no default case, so any code outside
the four enum constants falls off the end of the function: undefined behavior,
modelled as none. -/
noncomputable def evalOp (op : Int) (l r : ℝ) : Option ℝ :=
  if op = BinaryOperation.PLUS then some (l + r)
  else if op = BinaryOperation.MINUS then some (l - r)
  else if op = BinaryOperation.DIV then some (l / r)
  else if op = BinaryOperation.MUL then some (l * r)
  else none

/-- Expression.evaluate: Number returns its value; Variable returns the fixed
placeholder 0.0; BinaryOperation evaluates left then right and combines them
through the operator switch; FunctionCall evaluates its argument and applies
sqrt when the name is "sqrt" and fabs otherwise (the constructor restricts the
name to "sqrt" or "abs"). -/
noncomputable def Expression.evaluate : Expression → Option ℝ
  | .Number v => some v
  | .Variable _ => some 0
  | .BinaryOperation l op r =>
      l.evaluate.bind fun a => r.evaluate.bind fun b => evalOp op a b
  | .FunctionCall nm a =>
      a.evaluate.map fun x => if nm = "sqrt" then Real.sqrt x else |x|

/-- The one-character string the printer builds from the operator code, as
std::string(1, op) does in BinaryOperation::print. -/
def opString (op : Int) : String := String.mk [Char.ofNat op.toNat]

/-- Expression.print: Number renders its value with the host double-to-text
rule fmt (std::to_string), Variable prints its name, BinaryOperation prints
left, the operator character, right with no parentheses or spaces, and
FunctionCall prints name(argument). -/
def Expression.print (fmt : ℝ → String) : Expression → String
  | .Number v => fmt v
  | .Variable nm => nm
  | .BinaryOperation l op r => l.print fmt ++ opString op ++ r.print fmt
  | .FunctionCall nm a => nm ++ "(" ++ a.print fmt ++ ")"

/-- The dynamic_cast to Number used by FoldConstants: true exactly on Number
nodes. -/
def isNumber : Expression → Bool
  | .Number _ => true
  | _ => false

/-- The operator code is one of the four enum constants: the invariant the
data model states for BinaryOperation. -/
def validOp (op : Int) : Bool :=
  op == BinaryOperation.PLUS || op == BinaryOperation.MINUS ||
    op == BinaryOperation.DIV || op == BinaryOperation.MUL

/-- The tree satisfies the data-model invariants that the public constructors
are meant to maintain: every operator code is one of the four enum constants
and every FunctionCall name is "sqrt" or "abs". -/
def wellFormed : Expression → Bool
  | .Number _ => true
  | .Variable _ => true
  | .BinaryOperation l op r => wellFormed l && validOp op && wellFormed r
  | .FunctionCall nm a => (nm == "sqrt" || nm == "abs") && wellFormed a

/-- The tree contains at least one Variable node. -/
def hasVariable : Expression → Bool
  | .Number _ => false
  | .Variable _ => true
  | .BinaryOperation l _ r => hasVariable l || hasVariable r
  | .FunctionCall _ a => hasVariable a

/-- BinaryOperation constructor: takes possibly-null child pointers and the
operator code, asserts both children are present, and performs no check at all
on the operator code. -/
def mkBinaryOperation (left : Option Expression) (op : Int)
    (right : Option Expression) : Option Expression :=
  match left, right with
  | some l, some r => some (.BinaryOperation l op r)
  | _, _ => none

/-- FunctionCall constructor: asserts the argument is present and that the
name is exactly "sqrt" or "abs". -/
def mkFunctionCall (nm : String) (arg : Option Expression) : Option Expression :=
  match arg with
  | some a => if nm == "sqrt" || nm == "abs" then some (.FunctionCall nm a) else none
  | none => none

/-- Variable constructor: stores the name with no validation. -/
def mkVariable (nm : String) : Option Expression := some (.Variable nm)

/-- Number constructor: stores the value with no validation. -/
def mkNumber (v : ℝ) : Option Expression := some (.Number v)

/-- CopySyntaxTree: reconstructs each variant as a structurally identical new
node, recursively transforming the children with itself. -/
def CopySyntaxTree : Expression → Expression
  | .Number v => .Number v
  | .BinaryOperation l op r => .BinaryOperation (CopySyntaxTree l) op (CopySyntaxTree r)
  | .FunctionCall nm a => .FunctionCall nm (CopySyntaxTree a)
  | .Variable nm => .Variable nm

/-- FoldConstants: Numbers and Variables are copied. For a BinaryOperation the
children are transformed first; a new BinaryOperation over them is built, and
if both transformed children are Number nodes (the dynamic_cast checks) it is
discarded in favor of a single Number holding the evaluation of the original
node. For a FunctionCall the argument is transformed, a new FunctionCall is
built (its constructor re-asserts the name, hence the name guard before the
argument check), and if the transformed argument is a Number it is discarded
in favor of a single Number holding the evaluation of the original node.
Option-valued because evaluating the original node is undefined for an
operator code outside the enum, and because the FunctionCall constructor
asserts the name. -/
noncomputable def FoldConstants : Expression → Option Expression
  | .Number v => some (.Number v)
  | .BinaryOperation l op r =>
      (FoldConstants l).bind fun nl =>
        (FoldConstants r).bind fun nr =>
          if isNumber nl && isNumber nr then
            (Expression.evaluate (.BinaryOperation l op r)).map Expression.Number
          else some (.BinaryOperation nl op nr)
  | .FunctionCall nm a =>
      (FoldConstants a).bind fun na =>
        if nm == "sqrt" || nm == "abs" then
          if isNumber na then
            (Expression.evaluate (.FunctionCall nm a)).map Expression.Number
          else some (.FunctionCall nm na)
        else none
  | .Variable nm => some (.Variable nm)

/-- Folded normal form: no BinaryOperation has two Number children and no
FunctionCall has a Number argument. -/
def foldedNormalForm : Expression → Bool
  | .Number _ => true
  | .Variable _ => true
  | .BinaryOperation l _ r =>
      foldedNormalForm l && foldedNormalForm r && !(isNumber l && isNumber r)
  | .FunctionCall _ a => foldedNormalForm a && !(isNumber a)

/-- The tree main builds: abs(var * sqrt(32 - 16)). -/
def sampleTree : Expression :=
  .FunctionCall "abs"
    (.BinaryOperation (.Variable "var") BinaryOperation.MUL
      (.FunctionCall "sqrt"
        (.BinaryOperation (.Number 32) BinaryOperation.MINUS (.Number 16))))

/-- Expression tree with an explicit heap address on every node, used to state
the allocation behavior of the transformers. An address stands for the value
of a new-expression; the allocator model is a bump allocator handing out the
next free address, so a freed address is never handed out again, which is
sound for proving that outputs share no node with inputs. -/
inductive AExpr : Type
  | Number (addr : ℕ) (value : ℝ)
  | Variable (addr : ℕ) (name : String)
  | BinaryOperation (addr : ℕ) (left : AExpr) (op : Int) (right : AExpr)
  | FunctionCall (addr : ℕ) (name : String) (arg : AExpr)

/-- The addresses of all nodes of an addressed tree. -/
def AExpr.addrs : AExpr → List ℕ
  | .Number a _ => [a]
  | .Variable a _ => [a]
  | .BinaryOperation a l _ r => a :: (l.addrs ++ r.addrs)
  | .FunctionCall a _ x => a :: x.addrs

/-- Forget the addresses, recovering the plain expression tree. -/
def AExpr.erase : AExpr → Expression
  | .Number _ v => .Number v
  | .Variable _ nm => .Variable nm
  | .BinaryOperation _ l op r => .BinaryOperation (AExpr.erase l) op (AExpr.erase r)
  | .FunctionCall _ nm x => .FunctionCall nm (AExpr.erase x)

/-- The dynamic_cast to Number on an addressed node. -/
def aIsNumber : AExpr → Bool
  | .Number _ _ => true
  | _ => false

/-- CopySyntaxTree with explicit allocation: takes the next free address and
returns the copied tree together with the next free address afterwards. Each
transform method allocates exactly one new node, after its recursive calls
have allocated the new children. -/
def copySyntaxTreeAlloc : AExpr → ℕ → AExpr × ℕ
  | .Number _ v, n => (.Number n v, n + 1)
  | .Variable _ nm, n => (.Variable n nm, n + 1)
  | .BinaryOperation _ l op r, n =>
      let p1 := copySyntaxTreeAlloc l n
      let p2 := copySyntaxTreeAlloc r p1.2
      (.BinaryOperation p2.2 p1.1 op p2.1, p2.2 + 1)
  | .FunctionCall _ nm x, n =>
      let p := copySyntaxTreeAlloc x n
      (.FunctionCall p.2 nm p.1, p.2 + 1)

/-- FoldConstants with explicit allocation. In the two collapse branches the
intermediate node (nbinop or nfcall) is allocated first and then deleted, and
the result Number is allocated after it, so the result occupies the address
following the intermediate node; the bump allocator never reuses the deleted
address. Evaluation of the original node uses the plain semantics on the
erased tree. -/
noncomputable def foldConstantsAlloc : AExpr → ℕ → Option (AExpr × ℕ)
  | .Number _ v, n => some (.Number n v, n + 1)
  | .Variable _ nm, n => some (.Variable n nm, n + 1)
  | .BinaryOperation _ l op r, n =>
      (foldConstantsAlloc l n).bind fun p1 =>
        (foldConstantsAlloc r p1.2).bind fun p2 =>
          if aIsNumber p1.1 && aIsNumber p2.1 then
            (Expression.evaluate
                (.BinaryOperation (AExpr.erase l) op (AExpr.erase r))).map
              fun v => (.Number (p2.2 + 1) v, p2.2 + 2)
          else some (.BinaryOperation p2.2 p1.1 op p2.1, p2.2 + 1)
  | .FunctionCall _ nm x, n =>
      (foldConstantsAlloc x n).bind fun p =>
        if nm == "sqrt" || nm == "abs" then
          if aIsNumber p.1 then
            (Expression.evaluate (.FunctionCall nm (AExpr.erase x))).map
              fun v => (.Number (p.2 + 1) v, p.2 + 2)
          else some (.FunctionCall p.2 nm p.1, p.2 + 1)
        else none

/-- A valid operator code always has a defined switch result. -/
theorem evalOp_eq_some (op : Int) (a b : ℝ) (h : validOp op = true) :
    ∃ v, evalOp op a b = some v := by
  simp only [validOp, Bool.or_eq_true, beq_iff_eq] at h
  rcases h with ((h | h) | h) | h <;> subst h <;>
    simp [evalOp, BinaryOperation.PLUS, BinaryOperation.MINUS,
      BinaryOperation.DIV, BinaryOperation.MUL]

/-- A node is a Number exactly when the dynamic_cast check succeeds. -/
theorem isNumber_eq_true_iff (e : Expression) :
    isNumber e = true ↔ ∃ v, e = .Number v := by
  cases e <;> simp [isNumber]

/-- Well-formed trees always evaluate to a defined value: the undefined
operator case of the switch is unreachable on them. -/
theorem evaluate_isSome_of_wellFormed :
    ∀ e : Expression, wellFormed e = true → ∃ v, e.evaluate = some v := by
  intro e
  induction e with
  | Number v => exact fun _ => ⟨v, rfl⟩
  | Variable nm => exact fun _ => ⟨0, rfl⟩
  | BinaryOperation l op r ihl ihr =>
      intro h
      simp only [wellFormed, Bool.and_eq_true] at h
      obtain ⟨⟨hl, hop⟩, hr⟩ := h
      obtain ⟨a, ha⟩ := ihl hl
      obtain ⟨b, hb⟩ := ihr hr
      obtain ⟨v, hv⟩ := evalOp_eq_some op a b hop
      exact ⟨v, by simp [Expression.evaluate, ha, hb, hv]⟩
  | FunctionCall nm x ih =>
      intro h
      simp only [wellFormed, Bool.and_eq_true] at h
      obtain ⟨a, ha⟩ := ih h.2
      refine ⟨if nm = "sqrt" then Real.sqrt a else |a|, ?_⟩
      simp [Expression.evaluate, ha]

/-- CopySyntaxTree is the identity at the value level. -/
theorem CopySyntaxTree_eq (e : Expression) : CopySyntaxTree e = e := by
  induction e with
  | Number v => rfl
  | Variable nm => rfl
  | BinaryOperation l op r ihl ihr => simp [CopySyntaxTree, ihl, ihr]
  | FunctionCall nm x ih => simp [CopySyntaxTree, ih]

/-- On a well-formed tree with no Variable, folding collapses the whole tree
to the single Number holding its evaluation. -/
theorem fold_of_no_variable :
    ∀ e : Expression, wellFormed e = true → hasVariable e = false →
      ∃ v, FoldConstants e = some (.Number v) ∧ e.evaluate = some v := by
  intro e
  induction e with
  | Number v => exact fun _ _ => ⟨v, rfl, rfl⟩
  | Variable nm => intro _ hv; simp [hasVariable] at hv
  | BinaryOperation l op r ihl ihr =>
      intro hwf hv
      simp only [wellFormed, Bool.and_eq_true] at hwf
      simp only [hasVariable, Bool.or_eq_false_iff] at hv
      obtain ⟨⟨hl, hop⟩, hr⟩ := hwf
      obtain ⟨a, hfl, hel⟩ := ihl hl hv.1
      obtain ⟨b, hfr, her⟩ := ihr hr hv.2
      obtain ⟨v, hv2⟩ := evalOp_eq_some op a b hop
      refine ⟨v, ?_, ?_⟩
      · simp [FoldConstants, hfl, hfr, isNumber, Expression.evaluate, hel, her, hv2]
      · simp [Expression.evaluate, hel, her, hv2]
  | FunctionCall nm x ih =>
      intro hwf hv
      simp only [wellFormed, Bool.and_eq_true] at hwf
      simp only [hasVariable] at hv
      obtain ⟨a, hfx, hex⟩ := ih hwf.2 hv
      refine ⟨if nm = "sqrt" then Real.sqrt a else |a|, ?_, ?_⟩
      · simp [FoldConstants, hfx, hwf.1, isNumber, Expression.evaluate, hex]
      · simp [Expression.evaluate, hex]

/-- Folding a well-formed tree succeeds and preserves the evaluation result. -/
theorem fold_preserves_evaluate :
    ∀ e : Expression, wellFormed e = true →
      ∃ f, FoldConstants e = some f ∧ f.evaluate = e.evaluate := by
  intro e
  induction e with
  | Number v => exact fun _ => ⟨.Number v, rfl, rfl⟩
  | Variable nm => exact fun _ => ⟨.Variable nm, rfl, rfl⟩
  | BinaryOperation l op r ihl ihr =>
      intro hwf
      simp only [wellFormed, Bool.and_eq_true] at hwf
      obtain ⟨⟨hl, hop⟩, hr⟩ := hwf
      obtain ⟨fl, hfl, hel⟩ := ihl hl
      obtain ⟨fr, hfr, her⟩ := ihr hr
      by_cases hnum : (isNumber fl && isNumber fr) = true
      · have hfl2 := hnum
        simp only [Bool.and_eq_true, isNumber_eq_true_iff] at hfl2
        obtain ⟨⟨a, rfl⟩, ⟨b, rfl⟩⟩ := hfl2
        have hla : l.evaluate = some a := by
          rw [← hel]; rfl
        have hrb : r.evaluate = some b := by
          rw [← her]; rfl
        obtain ⟨v, hv⟩ := evalOp_eq_some op a b hop
        refine ⟨.Number v, ?_, ?_⟩
        · simp [FoldConstants, hfl, hfr, isNumber, Expression.evaluate, hla, hrb, hv]
        · simp [Expression.evaluate, hla, hrb, hv]
      · refine ⟨.BinaryOperation fl op fr, ?_, ?_⟩
        · simp only [FoldConstants, hfl, hfr, Option.some_bind]
          rw [if_neg hnum]
        · simp [Expression.evaluate, hel, her]
  | FunctionCall nm x ih =>
      intro hwf
      simp only [wellFormed, Bool.and_eq_true] at hwf
      obtain ⟨fx, hfx, hex⟩ := ih hwf.2
      by_cases hnum : isNumber fx = true
      · rw [isNumber_eq_true_iff] at hnum
        obtain ⟨a, rfl⟩ := hnum
        have hxa : x.evaluate = some a := by rw [← hex]; rfl
        refine ⟨.Number (if nm = "sqrt" then Real.sqrt a else |a|), ?_, ?_⟩
        · simp [FoldConstants, hfx, hwf.1, isNumber, Expression.evaluate, hxa]
        · simp [Expression.evaluate, hxa]
      · refine ⟨.FunctionCall nm fx, ?_, ?_⟩
        · simp only [FoldConstants, hfx, Option.some_bind]
          rw [if_pos hwf.1, if_neg hnum]
        · simp [Expression.evaluate, hex]

/-- Every tree a successful fold returns is a fixpoint of folding. -/
theorem FoldConstants_fixpoint :
    ∀ e f : Expression, FoldConstants e = some f → FoldConstants f = some f := by
  intro e
  induction e with
  | Number v =>
      intro f h
      simp only [FoldConstants, Option.some.injEq] at h
      subst h; rfl
  | Variable nm =>
      intro f h
      simp only [FoldConstants, Option.some.injEq] at h
      subst h; rfl
  | BinaryOperation l op r ihl ihr =>
      intro f h
      simp only [FoldConstants] at h
      rw [Option.bind_eq_some] at h
      obtain ⟨nl, hnl, h⟩ := h
      rw [Option.bind_eq_some] at h
      obtain ⟨nr, hnr, h⟩ := h
      by_cases hnum : (isNumber nl && isNumber nr) = true
      · rw [if_pos hnum, Option.map_eq_some'] at h
        obtain ⟨v, _, rfl⟩ := h
        rfl
      · rw [if_neg hnum, Option.some.injEq] at h
        subst h
        simp only [FoldConstants, ihl nl hnl, ihr nr hnr, Option.some_bind]
        rw [if_neg hnum]
  | FunctionCall nm x ih =>
      intro f h
      simp only [FoldConstants] at h
      rw [Option.bind_eq_some] at h
      obtain ⟨na, hna, h⟩ := h
      by_cases hg : (nm == "sqrt" || nm == "abs") = true
      · rw [if_pos hg] at h
        by_cases hnum : isNumber na = true
        · rw [if_pos hnum, Option.map_eq_some'] at h
          obtain ⟨v, _, rfl⟩ := h
          rfl
        · rw [if_neg hnum, Option.some.injEq] at h
          subst h
          simp only [FoldConstants, ih na hna, Option.some_bind]
          rw [if_pos hg, if_neg hnum]
      · rw [if_neg hg] at h
        exact absurd h (by simp)

/-- Every tree a successful fold returns is in folded normal form. -/
theorem fold_normalForm :
    ∀ e f : Expression, FoldConstants e = some f → foldedNormalForm f = true := by
  intro e
  induction e with
  | Number v =>
      intro f h
      simp only [FoldConstants, Option.some.injEq] at h
      subst h; rfl
  | Variable nm =>
      intro f h
      simp only [FoldConstants, Option.some.injEq] at h
      subst h; rfl
  | BinaryOperation l op r ihl ihr =>
      intro f h
      simp only [FoldConstants] at h
      rw [Option.bind_eq_some] at h
      obtain ⟨nl, hnl, h⟩ := h
      rw [Option.bind_eq_some] at h
      obtain ⟨nr, hnr, h⟩ := h
      by_cases hnum : (isNumber nl && isNumber nr) = true
      · rw [if_pos hnum, Option.map_eq_some'] at h
        obtain ⟨v, _, rfl⟩ := h
        rfl
      · rw [if_neg hnum, Option.some.injEq] at h
        subst h
        simp only [Bool.not_eq_true] at hnum
        simp [foldedNormalForm, ihl nl hnl, ihr nr hnr, hnum]
  | FunctionCall nm x ih =>
      intro f h
      simp only [FoldConstants] at h
      rw [Option.bind_eq_some] at h
      obtain ⟨na, hna, h⟩ := h
      by_cases hg : (nm == "sqrt" || nm == "abs") = true
      · rw [if_pos hg] at h
        by_cases hnum : isNumber na = true
        · rw [if_pos hnum, Option.map_eq_some'] at h
          obtain ⟨v, _, rfl⟩ := h
          rfl
        · rw [if_neg hnum, Option.some.injEq] at h
          subst h
          simp only [Bool.not_eq_true] at hnum
          simp [foldedNormalForm, ih na hna, hnum]
      · rw [if_neg hg] at h
        exact absurd h (by simp)

/-- The copy allocator advances the counter and places every node of its
output at a fresh address inside the window it allocated. -/
theorem copySyntaxTreeAlloc_fresh :
    ∀ (ae : AExpr) (n : ℕ),
      n ≤ (copySyntaxTreeAlloc ae n).2 ∧
      ∀ a ∈ (copySyntaxTreeAlloc ae n).1.addrs,
        n ≤ a ∧ a < (copySyntaxTreeAlloc ae n).2 := by
  intro ae
  induction ae with
  | Number ad v =>
      intro n
      refine ⟨Nat.le_succ n, ?_⟩
      intro a ha
      simp only [copySyntaxTreeAlloc, AExpr.addrs, List.mem_singleton] at ha
      simp only [copySyntaxTreeAlloc]
      omega
  | Variable ad nm =>
      intro n
      refine ⟨Nat.le_succ n, ?_⟩
      intro a ha
      simp only [copySyntaxTreeAlloc, AExpr.addrs, List.mem_singleton] at ha
      simp only [copySyntaxTreeAlloc]
      omega
  | BinaryOperation ad l op r ihl ihr =>
      intro n
      obtain ⟨h1, h2⟩ := ihl n
      obtain ⟨h3, h4⟩ := ihr (copySyntaxTreeAlloc l n).2
      constructor
      · simp only [copySyntaxTreeAlloc]
        omega
      · intro a ha
        simp only [copySyntaxTreeAlloc, AExpr.addrs, List.mem_cons,
          List.mem_append] at ha
        simp only [copySyntaxTreeAlloc]
        rcases ha with rfl | ha | ha
        · omega
        · have := h2 a ha
          omega
        · have := h4 a ha
          omega
  | FunctionCall ad nm x ih =>
      intro n
      obtain ⟨h1, h2⟩ := ih n
      constructor
      · simp only [copySyntaxTreeAlloc]
        omega
      · intro a ha
        simp only [copySyntaxTreeAlloc, AExpr.addrs, List.mem_cons] at ha
        simp only [copySyntaxTreeAlloc]
        rcases ha with rfl | ha
        · omega
        · have := h2 a ha
          omega

/-- Erasing addresses from the output of the copy allocator yields exactly the
value-level CopySyntaxTree of the erased input. -/
theorem copySyntaxTreeAlloc_erase :
    ∀ (ae : AExpr) (n : ℕ),
      AExpr.erase (copySyntaxTreeAlloc ae n).1 = CopySyntaxTree (AExpr.erase ae) := by
  intro ae
  induction ae with
  | Number ad v => intro n; rfl
  | Variable ad nm => intro n; rfl
  | BinaryOperation ad l op r ihl ihr =>
      intro n
      simp only [copySyntaxTreeAlloc, AExpr.erase, CopySyntaxTree, ihl, ihr]
  | FunctionCall ad nm x ih =>
      intro n
      simp only [copySyntaxTreeAlloc, AExpr.erase, CopySyntaxTree, ih]

/-- The fold allocator, when it succeeds, advances the counter and places
every node of its output at a fresh address inside the window it allocated. -/
theorem foldConstantsAlloc_fresh :
    ∀ (ae : AExpr) (n : ℕ) (p : AExpr × ℕ), foldConstantsAlloc ae n = some p →
      n ≤ p.2 ∧ ∀ a ∈ p.1.addrs, n ≤ a ∧ a < p.2 := by
  intro ae
  induction ae with
  | Number ad v =>
      intro n p h
      simp only [foldConstantsAlloc, Option.some.injEq] at h
      subst h
      refine ⟨Nat.le_succ n, ?_⟩
      intro a ha
      simp only [AExpr.addrs, List.mem_singleton] at ha
      omega
  | Variable ad nm =>
      intro n p h
      simp only [foldConstantsAlloc, Option.some.injEq] at h
      subst h
      refine ⟨Nat.le_succ n, ?_⟩
      intro a ha
      simp only [AExpr.addrs, List.mem_singleton] at ha
      omega
  | BinaryOperation ad l op r ihl ihr =>
      intro n p h
      simp only [foldConstantsAlloc] at h
      rw [Option.bind_eq_some] at h
      obtain ⟨p1, hp1, h⟩ := h
      rw [Option.bind_eq_some] at h
      obtain ⟨p2, hp2, h⟩ := h
      obtain ⟨h1, h2⟩ := ihl n p1 hp1
      obtain ⟨h3, h4⟩ := ihr p1.2 p2 hp2
      by_cases hnum : (aIsNumber p1.1 && aIsNumber p2.1) = true
      · rw [if_pos hnum, Option.map_eq_some'] at h
        obtain ⟨v, _, rfl⟩ := h
        dsimp only
        refine ⟨by omega, ?_⟩
        intro a ha
        simp only [AExpr.addrs, List.mem_singleton] at ha
        omega
      · rw [if_neg hnum, Option.some.injEq] at h
        subst h
        dsimp only
        refine ⟨by omega, ?_⟩
        intro a ha
        simp only [AExpr.addrs, List.mem_cons, List.mem_append] at ha
        rcases ha with rfl | ha | ha
        · omega
        · have := h2 a ha
          omega
        · have := h4 a ha
          omega
  | FunctionCall ad nm x ih =>
      intro n p h
      simp only [foldConstantsAlloc] at h
      rw [Option.bind_eq_some] at h
      obtain ⟨p1, hp1, h⟩ := h
      obtain ⟨h1, h2⟩ := ih n p1 hp1
      by_cases hg : (nm == "sqrt" || nm == "abs") = true
      · rw [if_pos hg] at h
        by_cases hnum : aIsNumber p1.1 = true
        · rw [if_pos hnum, Option.map_eq_some'] at h
          obtain ⟨v, _, rfl⟩ := h
          dsimp only
          refine ⟨by omega, ?_⟩
          intro a ha
          simp only [AExpr.addrs, List.mem_singleton] at ha
          omega
        · rw [if_neg hnum, Option.some.injEq] at h
          subst h
          dsimp only
          refine ⟨by omega, ?_⟩
          intro a ha
          simp only [AExpr.addrs, List.mem_cons] at ha
          rcases ha with rfl | ha
          · omega
          · have := h2 a ha
            omega
      · rw [if_neg hg] at h
        exact absurd h (by simp)

/-- The tree FoldConstants produces from the main tree: the constant subtree
sqrt(32-16) collapses to the Number 4; the multiplication and the abs call
remain because the Variable is present. -/
def foldedSampleTree : Expression :=
  .FunctionCall "abs"
    (.BinaryOperation (.Variable "var") BinaryOperation.MUL (.Number 4))

/-- The square root of sixteen is four. -/
theorem sqrt_sixteen : Real.sqrt 16 = 4 := by
  rw [show (16:ℝ) = 4 ^ 2 by norm_num]
  exact Real.sqrt_sq (by norm_num)

/-- Folding the main tree produces exactly the folded sample tree. -/
theorem fold_sample : FoldConstants sampleTree = some foldedSampleTree := by
  have h16 : ((32:ℝ) - 16) = 16 := by norm_num
  simp [sampleTree, foldedSampleTree, FoldConstants, Expression.evaluate, evalOp,
    BinaryOperation.PLUS, BinaryOperation.MINUS, BinaryOperation.DIV,
    BinaryOperation.MUL, isNumber, h16, sqrt_sixteen]

/-- Printing the main tree under the host rendering of 32.0 and 16.0. -/
theorem print_sample (fmt : ℝ → String) (h32 : fmt 32 = "32.000000")
    (h16 : fmt 16 = "16.000000") :
    sampleTree.print fmt = "abs(var*sqrt(32.000000-16.000000))" := by
  simp only [sampleTree, Expression.print, opString, BinaryOperation.MUL,
    BinaryOperation.MINUS, h32, h16]
  rfl

/-- Printing the folded main tree under the host rendering of 4.0. -/
theorem print_folded_sample (fmt : ℝ → String) (h4 : fmt 4 = "4.000000") :
    foldedSampleTree.print fmt = "abs(var*4.000000)" := by
  simp only [foldedSampleTree, Expression.print, opString, BinaryOperation.MUL, h4]
  rfl

open Classical in
/-- A concrete host rendering function agreeing with std::to_string at the
three values the main scenario prints. -/
noncomputable def sampleFmt : ℝ → String := fun x =>
  if x = 32 then "32.000000"
  else if x = 16 then "16.000000"
  else if x = 4 then "4.000000"
  else ""

/-- C1: for every expression containing no Variable node anywhere (and
satisfying the data-model construction invariants: every operator one of the
four codes, every call name sqrt or abs), FoldConstants yields a single
Number node whose value equals the evaluation of the expression (exactly, in
the real-number model of doubles). -/
theorem fold_constant_tree_is_number (e : Expression)
    (hwf : wellFormed e = true) (hnv : hasVariable e = false) :
    ∃ v, FoldConstants e = some (.Number v) ∧ e.evaluate = some v :=
  fold_of_no_variable e hwf hnv

/-- Witness for C1 at the variable-free tree 2 + 3. -/
theorem fold_constant_tree_is_number_witness :
    wellFormed (.BinaryOperation (.Number 2) BinaryOperation.PLUS (.Number 3)) = true ∧
    hasVariable (.BinaryOperation (.Number 2) BinaryOperation.PLUS (.Number 3)) = false ∧
    ∃ v, FoldConstants (.BinaryOperation (.Number 2) BinaryOperation.PLUS (.Number 3)) =
        some (.Number v) ∧
      Expression.evaluate
          (.BinaryOperation (.Number 2) BinaryOperation.PLUS (.Number 3)) =
        some v :=
  ⟨by decide, by decide,
    fold_constant_tree_is_number
      (.BinaryOperation (.Number 2) BinaryOperation.PLUS (.Number 3))
      (by decide) (by decide)⟩

/-- C2: for every expression containing at least one Variable node (and
satisfying the data-model construction invariants), FoldConstants succeeds
and the folded tree evaluates to the same value as the original: folding
changes only structure, never the evaluated result. -/
theorem fold_preserves_semantics_with_variable (e : Expression)
    (hwf : wellFormed e = true) (_hv : hasVariable e = true) :
    ∃ f, FoldConstants e = some f ∧ f.evaluate = e.evaluate :=
  fold_preserves_evaluate e hwf

/-- Witness for C2 at the tree x + 2. -/
theorem fold_preserves_semantics_with_variable_witness :
    wellFormed (.BinaryOperation (.Variable "x") BinaryOperation.PLUS (.Number 2)) = true ∧
    hasVariable (.BinaryOperation (.Variable "x") BinaryOperation.PLUS (.Number 2)) = true ∧
    ∃ f, FoldConstants
          (.BinaryOperation (.Variable "x") BinaryOperation.PLUS (.Number 2)) =
        some f ∧
      f.evaluate =
        Expression.evaluate
          (.BinaryOperation (.Variable "x") BinaryOperation.PLUS (.Number 2)) :=
  ⟨by decide, by decide,
    fold_preserves_semantics_with_variable
      (.BinaryOperation (.Variable "x") BinaryOperation.PLUS (.Number 2))
      (by decide) (by decide)⟩

/-- C3: FoldConstants is idempotent: whenever folding an expression yields a
tree f, folding f yields f again, structurally identical at every node. -/
theorem fold_idempotent (e f : Expression) (h : FoldConstants e = some f) :
    FoldConstants f = some f :=
  FoldConstants_fixpoint e f h

/-- Witness for C3 at the tree consisting of the single Number 1. -/
theorem fold_idempotent_witness :
    FoldConstants (Expression.Number 1) = some (Expression.Number 1) :=
  fold_idempotent (Expression.Number 1) (Expression.Number 1) rfl

/-- C4: CopySyntaxTree is a value-level identity producing an independent
tree: the copy is structurally identical to the original, prints the same
string under any number rendering, and in the allocation model every node of
the copy occupies a fresh address, so the copy shares no node with the
original and destroying either cannot affect the other. -/
theorem copy_identity_and_independent (e : Expression) (fmt : ℝ → String)
    (ae : AExpr) (n : ℕ) (hn : ∀ a ∈ ae.addrs, a < n) :
    CopySyntaxTree e = e ∧
    (CopySyntaxTree e).print fmt = e.print fmt ∧
    AExpr.erase (copySyntaxTreeAlloc ae n).1 = CopySyntaxTree (AExpr.erase ae) ∧
    ∀ a ∈ (copySyntaxTreeAlloc ae n).1.addrs, a ∉ ae.addrs := by
  refine ⟨CopySyntaxTree_eq e, by rw [CopySyntaxTree_eq],
    copySyntaxTreeAlloc_erase ae n, ?_⟩
  intro a ha hmem
  have h1 := (copySyntaxTreeAlloc_fresh ae n).2 a ha
  have h2 := hn a hmem
  omega

/-- Witness for C4 at a single Variable node placed at address 0, copied with
the allocation counter at 1. -/
theorem copy_identity_and_independent_witness :
    CopySyntaxTree (Expression.Variable "x") = Expression.Variable "x" ∧
    1 ∉ AExpr.addrs (AExpr.Variable 0 "x") :=
  ⟨(copy_identity_and_independent (Expression.Variable "x") (fun _ => "")
      (AExpr.Variable 0 "x") 1 (by decide)).1,
    (copy_identity_and_independent (Expression.Variable "x") (fun _ => "")
      (AExpr.Variable 0 "x") 1 (by decide)).2.2.2 1 (by decide)⟩

/-- C5: for the tree abs(var * sqrt(32 - 16)) built by main, under the host
double rendering fmt (std::to_string, which renders 32.0, 16.0 and 4.0 with
six decimals): print yields exactly abs(var*sqrt(32.000000-16.000000)), the
copy prints the identical string, and the fold produces exactly the tree
abs(var*4.000000), where the constant subtree collapsed to the Number 4 and
the multiplication and abs call remain. -/
theorem main_scenario (fmt : ℝ → String) (h32 : fmt 32 = "32.000000")
    (h16 : fmt 16 = "16.000000") (h4 : fmt 4 = "4.000000") :
    sampleTree.print fmt = "abs(var*sqrt(32.000000-16.000000))" ∧
    (CopySyntaxTree sampleTree).print fmt = "abs(var*sqrt(32.000000-16.000000))" ∧
    FoldConstants sampleTree = some foldedSampleTree ∧
    foldedSampleTree.print fmt = "abs(var*4.000000)" := by
  refine ⟨print_sample fmt h32 h16, ?_, fold_sample, print_folded_sample fmt h4⟩
  rw [CopySyntaxTree_eq]
  exact print_sample fmt h32 h16

/-- Witness for C5 at a concrete rendering function agreeing with
std::to_string on the three printed values. -/
theorem main_scenario_witness :
    sampleTree.print sampleFmt = "abs(var*sqrt(32.000000-16.000000))" ∧
    (CopySyntaxTree sampleTree).print sampleFmt = "abs(var*sqrt(32.000000-16.000000))" ∧
    FoldConstants sampleTree = some foldedSampleTree ∧
    foldedSampleTree.print sampleFmt = "abs(var*4.000000)" :=
  main_scenario sampleFmt (by norm_num [sampleFmt]) (by norm_num [sampleFmt])
    (by norm_num [sampleFmt])

/-- C6: construction is validated and fails fast: a FunctionCall whose name
is neither sqrt nor abs is rejected whatever its argument, a FunctionCall
with an absent argument is rejected whatever its name, and a BinaryOperation
with an absent left or right operand is rejected; none of these constructions
silently proceeds. -/
theorem construction_validation_fails_fast (nm nm2 : String)
    (arg : Option Expression) (l r : Option Expression) (op op2 : Int)
    (h1 : nm ≠ "sqrt") (h2 : nm ≠ "abs") :
    mkFunctionCall nm arg = none ∧
    mkFunctionCall nm2 none = none ∧
    mkBinaryOperation l op none = none ∧
    mkBinaryOperation none op2 r = none := by
  refine ⟨?_, rfl, ?_, ?_⟩
  · cases arg with
    | none => rfl
    | some a => simp [mkFunctionCall, h1, h2]
  · cases l <;> rfl
  · cases r <;> rfl

/-- Witness for C6 at the name log and missing operands. -/
theorem construction_validation_fails_fast_witness :
    mkFunctionCall "log" (some (Expression.Number 1)) = none ∧
    mkFunctionCall "sqrt" none = none ∧
    mkBinaryOperation (some (Expression.Number 1)) BinaryOperation.MINUS none = none ∧
    mkBinaryOperation none BinaryOperation.MINUS (some (Expression.Number 2)) = none :=
  construction_validation_fails_fast "log" "sqrt" (some (Expression.Number 1))
    (some (Expression.Number 1)) (some (Expression.Number 2))
    BinaryOperation.MINUS BinaryOperation.MINUS (by decide) (by decide)

/-- C7: contrary to the claim, the code does not reject an operator outside
the four defined symbols at construction time, and the unknown-operator case
is reachable in evaluate: the BinaryOperation constructor only asserts that
both operands are present, so it accepts the out-of-enum code 37 (the percent
sign), and evaluating the resulting node reaches the end of the switch with
no matching case, leaving the result undefined (modelled as none). -/
theorem unknown_operator_accepted_then_undefined :
    mkBinaryOperation (some (Expression.Number 1)) 37 (some (Expression.Number 2)) =
      some (Expression.BinaryOperation (Expression.Number 1) 37 (Expression.Number 2)) ∧
    Expression.evaluate
        (Expression.BinaryOperation (Expression.Number 1) 37 (Expression.Number 2)) =
      none := by
  refine ⟨rfl, ?_⟩
  simp [Expression.evaluate, evalOp, BinaryOperation.PLUS, BinaryOperation.MINUS,
    BinaryOperation.DIV, BinaryOperation.MUL]

/-- C8: both transformers allocate every node of their output at a fresh
address: when the whole input tree lives at addresses below the allocation
counter, no node of the output of CopySyntaxTree or FoldConstants shares an
address with any node of the input, so the transformation aliases nothing
from the source tree; the transformers read the input tree only (modelled by
purity), leaving it unchanged and usable. -/
theorem transformers_allocate_only_fresh_nodes (ae : AExpr) (n : ℕ)
    (hn : ∀ a ∈ ae.addrs, a < n) :
    (∀ a ∈ (copySyntaxTreeAlloc ae n).1.addrs, n ≤ a ∧ a ∉ ae.addrs) ∧
    ∀ p, foldConstantsAlloc ae n = some p →
      ∀ a ∈ p.1.addrs, n ≤ a ∧ a ∉ ae.addrs := by
  constructor
  · intro a ha
    have h1 := (copySyntaxTreeAlloc_fresh ae n).2 a ha
    exact ⟨h1.1, fun hmem => by have h2 := hn a hmem; omega⟩
  · intro p hp a ha
    have h1 := (foldConstantsAlloc_fresh ae n p hp).2 a ha
    exact ⟨h1.1, fun hmem => by have h2 := hn a hmem; omega⟩

/-- Witness for C8 at a single Variable node placed at address 0, folded with
the allocation counter at 1. -/
theorem transformers_allocate_only_fresh_nodes_witness :
    1 ≤ 1 ∧ 1 ∉ AExpr.addrs (AExpr.Variable 0 "x") :=
  (transformers_allocate_only_fresh_nodes (AExpr.Variable 0 "x") 1 (by decide)).2
    (AExpr.Variable 1 "x", 2) rfl 1 (by decide)

/-- C9 counterexample: the Variable constructor performs no validation, so a
Variable with an empty name is reachable through the public constructor. -/
theorem variable_empty_name_accepted :
    mkVariable "" = some (Expression.Variable "") := rfl

/-- C9 amended: Variable construction never fails and stores any name as
given, the empty string included; the non-empty-name invariant of the data
model is not enforced by the constructor. -/
theorem variable_construction_never_fails (nm : String) :
    mkVariable nm = some (Expression.Variable nm) := rfl

/-- C10: the output of a successful fold is in folded normal form: it
contains no BinaryOperation whose two children are both Number nodes and no
FunctionCall whose argument is a Number node. -/
theorem fold_output_in_normal_form (e f : Expression)
    (h : FoldConstants e = some f) : foldedNormalForm f = true :=
  fold_normalForm e f h

/-- Witness for C10 at the main tree, whose fold is abs(var*4). -/
theorem fold_output_in_normal_form_witness :
    foldedNormalForm foldedSampleTree = true :=
  fold_output_in_normal_form sampleTree foldedSampleTree fold_sample

end PatternMain
